import Mathlib

/-!
Verification of the lnk URL-shortener's Link Store and Forwarding Service.

Shallow embedding of `cmd/server/main.go` (build-tagged server variant) and
the untagged `main.go` variant of the same server.  The SQLite table
`links (shortcode TEXT PRIMARY KEY, url TEXT NOT NULL, created_at DATETIME
DEFAULT CURRENT_TIMESTAMP)` is modelled as a list of rows; each mutating
statement receives the clock value `now` that SQLite's CURRENT_TIMESTAMP
default would read.  `INSERT OR REPLACE` is modelled per SQLite semantics:
the conflicting row (on the primary key `shortcode`) is deleted and a fresh
row is inserted; since `created_at` is absent from the INSERT column list it
takes its default, i.e. the current timestamp.  Failures of the underlying
database driver are modelled by an optional failure message on the handle:
when present, every SQL statement returns that error, mirroring a failing
`sql.DB`.
-/

namespace Lnk

/-- Go `strings.HasPrefix s pre`, a byte-prefix test; on valid UTF-8 strings
this coincides with the character-list prefix test used here. -/
def strStartsWith (s pre : String) : Bool :=
  pre.data.isPrefixOf s.data

/-- A row of the `links` table: `shortcode TEXT PRIMARY KEY`,
`url TEXT NOT NULL`, `created_at DATETIME DEFAULT CURRENT_TIMESTAMP`. -/
structure LinkRow where
  shortcode : String
  url : String
  created_at : Nat
  deriving Repr, DecidableEq

/-- The `Link` struct of `main.go` (JSON fields `shortcode`, `url`). -/
structure Link where
  shortcode : String
  url : String
  deriving Repr, DecidableEq

/-- The database handle `lf.db`: the rows of the `links` table plus an
optional injected driver failure (its `err.Error()` message).  `failure =
none` models a healthy `sql.DB`; `failure = some m` models a handle whose
every statement fails with message `m`. -/
structure DB where
  rows : List LinkRow
  failure : Option String
  deriving Repr, DecidableEq

/-- Errors surfaced by the repository methods: the `fmt.Errorf("shortcode
not found")` error, or an error of the underlying store carrying the
driver's message. -/
inductive RepoError where
  | notFound : RepoError
  | storeError : String → RepoError
  deriving Repr, DecidableEq

/-- The `err.Error()` string of a repository error. -/
def errMessage : RepoError → String
  | .notFound => "shortcode not found"
  | .storeError m => m

/-- The URL normalization inside `saveLink`: `if !strings.HasPrefix(url,
"http://") && !strings.HasPrefix(url, "https://") { url = "https://" + url }`. -/
def normalizeURL (url : String) : String :=
  if !strStartsWith url "http://" && !strStartsWith url "https://" then
    "https://" ++ url
  else
    url

/-- Effect of `INSERT OR REPLACE INTO links (shortcode, url) VALUES (?, ?)`
on the table rows, with `url` already normalized by the caller: any row
conflicting on the primary key is deleted and the new row is inserted with
`created_at` taking its default `CURRENT_TIMESTAMP`, i.e. `now`. -/
def saveRows (rows : List LinkRow) (now : Nat) (shortcode url : String) : List LinkRow :=
  rows.filter (fun r => !(r.shortcode == shortcode)) ++ [⟨shortcode, url, now⟩]

/-- `func (lf *LinkForwarder) saveLink(shortcode, url string) error`:
normalizes the URL, then executes the INSERT OR REPLACE statement. -/
def saveLink (db : DB) (now : Nat) (shortcode url : String) : Except RepoError DB :=
  match db.failure with
  | some m => .error (.storeError m)
  | none => .ok ⟨saveRows db.rows now shortcode (normalizeURL url), none⟩

/-- `SELECT url FROM links WHERE shortcode = ?` — the row scanned by
`QueryRow`, if any. -/
def findRow (rows : List LinkRow) (shortcode : String) : Option LinkRow :=
  rows.find? (fun r => r.shortcode == shortcode)

/-- `func (lf *LinkForwarder) getURL(shortcode string) (string, error)`:
`sql.ErrNoRows` becomes the "shortcode not found" error; any other driver
error is returned as-is. -/
def getURL (db : DB) (shortcode : String) : Except RepoError String :=
  match db.failure with
  | some m => .error (.storeError m)
  | none =>
    match findRow db.rows shortcode with
    | some r => .ok r.url
    | none => .error .notFound

/-- Insertion step of the model of `ORDER BY created_at DESC`: place a row
before the first row with a strictly smaller `created_at`. -/
def insertSorted (r : LinkRow) : List LinkRow → List LinkRow
  | [] => [r]
  | x :: xs =>
    if x.created_at ≤ r.created_at then r :: x :: xs
    else x :: insertSorted r xs

/-- Model of `ORDER BY created_at DESC`: an insertion sort, descending by
`created_at` (SQLite leaves the order of ties unspecified; this picks one). -/
def sortByCreatedDesc : List LinkRow → List LinkRow
  | [] => []
  | x :: xs => insertSorted x (sortByCreatedDesc xs)

/-- Projection of a table row onto the `Link` struct scanned by
`getAllLinks` (`SELECT shortcode, url ...`). -/
def rowToLink (r : LinkRow) : Link :=
  ⟨r.shortcode, r.url⟩

/-- `func (lf *LinkForwarder) getAllLinks() ([]Link, error)`:
`SELECT shortcode, url FROM links ORDER BY created_at DESC`, scanning each
row into a `Link`; an empty table yields the empty slice, not an error. -/
def getAllLinks (db : DB) : Except RepoError (List Link) :=
  match db.failure with
  | some m => .error (.storeError m)
  | none => .ok ((sortByCreatedDesc db.rows).map rowToLink)

/-- `func (lf *LinkForwarder) deleteLink(shortcode string) error`:
`DELETE FROM links WHERE shortcode = ?`, then `RowsAffected`; zero affected
rows become the "shortcode not found" error.  Returns the result together
with the table state after the statement. -/
def deleteLink (db : DB) (shortcode : String) : Except RepoError Unit × DB :=
  match db.failure with
  | some m => (.error (.storeError m), db)
  | none =>
    let affected := (db.rows.filter (fun r => r.shortcode == shortcode)).length
    let db' : DB := ⟨db.rows.filter (fun r => !(r.shortcode == shortcode)), none⟩
    if affected == 0 then (.error .notFound, db') else (.ok (), db')

/-- Response of the forwarding handler.  `badRequest` is the
`http.Error(w, "Shortcode is required", http.StatusBadRequest)` reply;
`notFoundPage` is the `http.Error(w, "Link not found", http.StatusNotFound)`
reply of the untagged variant; `redirectFound` is
`http.Redirect(w, r, loc, http.StatusFound)` with `Location: loc`. -/
inductive ForwardResponse where
  | badRequest : ForwardResponse
  | notFoundPage : ForwardResponse
  | redirectFound : String → ForwardResponse
  deriving Repr, DecidableEq

/-- HTTP status code of a forwarding-handler response. -/
def ForwardResponse.status : ForwardResponse → Nat
  | .badRequest => 400
  | .notFoundPage => 404
  | .redirectFound _ => 302

/-- `func (lf *LinkForwarder) handleForward` of the server-tagged
`cmd/server/main.go`: empty shortcode is a bad request; any error from
`getURL` redirects to the home page with the shortcode and an error marker;
otherwise redirect (302/Found) to the stored URL. -/
def handleForward (db : DB) (shortcode : String) : ForwardResponse :=
  if shortcode == "" then .badRequest
  else
    match getURL db shortcode with
    | .error _ => .redirectFound ("/?shortcode=" ++ shortcode ++ "&error=not_found")
    | .ok url => .redirectFound url

/-- `func (lf *LinkForwarder) handleForward` of the untagged `main.go`
variant: identical except that any error from `getURL` yields a plain 404
"Link not found" response. -/
def handleForwardBasic (db : DB) (shortcode : String) : ForwardResponse :=
  if shortcode == "" then .badRequest
  else
    match getURL db shortcode with
    | .error _ => .notFoundPage
    | .ok url => .redirectFound url

/-- The `data` field of the JSON response envelope (`any` in Go): absent,
a single `Link`, or a slice of `Link`. -/
inductive Payload where
  | none : Payload
  | link : Link → Payload
  | links : List Link → Payload
  deriving Repr, DecidableEq

/-- A management-API reply: HTTP status (200 unless `WriteHeader` is
called) plus the encoded `Response{Success, Message, Data}` envelope. -/
structure APIResponse where
  status : Nat
  success : Bool
  message : String
  data : Payload
  deriving Repr, DecidableEq

/-- A request reaching `handleAPI`, after routing and body decoding:
`GET`, `POST` (with `none` standing for a body the JSON decoder rejects),
`DELETE` with its shortcode path variable, or any other method. -/
inductive Request where
  | get : Request
  | post : Option Link → Request
  | del : String → Request
  | other : Request
  deriving Repr, DecidableEq

/-- `func (lf *LinkForwarder) handleAPI`: the method switch.  `GET` lists
all links; `POST` validates the decoded body's fields non-empty, then
saves; `DELETE` validates the shortcode non-empty, then deletes, mapping
any `deleteLink` error to a 404 envelope carrying `err.Error()`; any other
method is 405.  Returns the reply and the database state afterwards. -/
def handleAPI (db : DB) (now : Nat) : Request → APIResponse × DB
  | .get =>
    match getAllLinks db with
    | .error _ => (⟨500, false, "Failed to retrieve links", .none⟩, db)
    | .ok links => (⟨200, true, "Links retrieved successfully", .links links⟩, db)
  | .post Option.none => (⟨400, false, "Invalid JSON", .none⟩, db)
  | .post (Option.some l) =>
    if l.shortcode == "" || l.url == "" then
      (⟨400, false, "Shortcode and URL are required", .none⟩, db)
    else
      match saveLink db now l.shortcode l.url with
      | .error _ => (⟨500, false, "Failed to save link", .none⟩, db)
      | .ok db' => (⟨200, true, "Link saved successfully", .link l⟩, db')
  | .del shortcode =>
    if shortcode == "" then (⟨400, false, "Shortcode is required", .none⟩, db)
    else
      match deleteLink db shortcode with
      | (.error e, db') => (⟨404, false, errMessage e, .none⟩, db')
      | (.ok _, db') => (⟨200, true, "Link deleted successfully", .none⟩, db')
  | .other => (⟨405, false, "Method not allowed", .none⟩, db)

/-- Driver for the claims that quantify over a sequence of upserts: apply
`saveLink`'s row transformation once per `(shortcode, url)` pair, the clock
advancing by one between statements. -/
def upsertAll (rows : List LinkRow) (t0 : Nat) : List (String × String) → List LinkRow
  | [] => rows
  | p :: ps => upsertAll (saveRows rows t0 p.1 (normalizeURL p.2)) (t0 + 1) ps

/-! Helper lemmas about the row-level operations. -/

theorem isPrefixOf_append (l₁ l₂ : List Char) : l₁.isPrefixOf (l₁ ++ l₂) = true := by
  induction l₁ with
  | nil => simp [List.isPrefixOf]
  | cons a as ih => simp [List.isPrefixOf, ih]

theorem strStartsWith_append_self (p u : String) : strStartsWith (p ++ u) p = true := by
  unfold strStartsWith
  rw [String.data_append]
  exact isPrefixOf_append _ _

theorem normalizeURL_hasScheme (url : String) :
    (strStartsWith (normalizeURL url) "http://" ||
     strStartsWith (normalizeURL url) "https://") = true := by
  unfold normalizeURL
  cases h1 : strStartsWith url "http://" with
  | true => simp [h1]
  | false =>
    cases h2 : strStartsWith url "https://" with
    | true => simp [h1, h2]
    | false => simp [h1, h2, strStartsWith_append_self]

theorem normalizeURL_of_scheme (url : String)
    (h : (strStartsWith url "http://" || strStartsWith url "https://") = true) :
    normalizeURL url = url := by
  unfold normalizeURL
  rcases Bool.or_eq_true_iff.mp h with h' | h' <;> simp [h']

theorem normalizeURL_of_no_scheme (url : String)
    (h : (strStartsWith url "http://" || strStartsWith url "https://") = false) :
    normalizeURL url = "https://" ++ url := by
  unfold normalizeURL
  rcases Bool.or_eq_false_iff.mp h with ⟨h1, h2⟩
  simp [h1, h2]

theorem findRow_saveRows (rows : List LinkRow) (now : Nat) (sc url : String) :
    findRow (saveRows rows now sc url) sc = some ⟨sc, url, now⟩ := by
  induction rows with
  | nil => simp [findRow, saveRows, List.find?]
  | cons r rs ih =>
    unfold saveRows findRow at ih ⊢
    cases hr : r.shortcode == sc with
    | true => simp [List.filter_cons, hr, ih]
    | false => simp [List.filter_cons, hr, List.find?_cons, ih]

theorem findRow_erase_none (rows : List LinkRow) (sc : String) :
    findRow (rows.filter (fun r => !(r.shortcode == sc))) sc = none := by
  induction rows with
  | nil => rfl
  | cons r rs ih =>
    unfold findRow at ih ⊢
    cases hr : r.shortcode == sc with
    | true => simp [List.filter_cons, hr, ih]
    | false => simp [List.filter_cons, hr, List.find?_cons, ih]

theorem erase_eq_self_of_absent (rows : List LinkRow) (sc : String)
    (h : findRow rows sc = none) :
    rows.filter (fun r => !(r.shortcode == sc)) = rows := by
  rw [List.filter_eq_self]
  intro r hr
  have := List.find?_eq_none.mp h r hr
  simp_all

theorem matches_saveRows (rows : List LinkRow) (now : Nat) (sc url : String) :
    (saveRows rows now sc url).filter (fun r => r.shortcode == sc) = [⟨sc, url, now⟩] := by
  unfold saveRows
  rw [List.filter_append]
  have h1 : (rows.filter (fun r => !(r.shortcode == sc))).filter
      (fun r => r.shortcode == sc) = [] := by
    induction rows with
    | nil => rfl
    | cons r rs ih =>
      cases hr : r.shortcode == sc with
      | true => simp [List.filter_cons, hr, ih]
      | false => simp [List.filter_cons, hr, ih]
  rw [h1]
  simp [List.filter_cons]

theorem saveRows_idem (rows : List LinkRow) (t1 t2 : Nat) (sc url : String) :
    saveRows (saveRows rows t1 sc url) t2 sc url = saveRows rows t2 sc url := by
  unfold saveRows
  rw [List.filter_append]
  have h1 : ∀ l : List LinkRow, (l.filter (fun r => !(r.shortcode == sc))).filter
      (fun r => !(r.shortcode == sc)) = l.filter (fun r => !(r.shortcode == sc)) := by
    intro l
    induction l with
    | nil => rfl
    | cons r rs ih =>
      cases hr : r.shortcode == sc with
      | true => simp [List.filter_cons, hr, ih]
      | false => simp [List.filter_cons, hr, ih]
  rw [h1]
  simp [List.filter_cons]

theorem insertSorted_of_lt (r : LinkRow) (l : List LinkRow)
    (h : ∀ y ∈ l, r.created_at < y.created_at) :
    insertSorted r l = l ++ [r] := by
  induction l with
  | nil => rfl
  | cons x xs ih =>
    have hx := h x (List.mem_cons_self x xs)
    rw [insertSorted, if_neg (by omega)]
    rw [ih (fun y hy => h y (List.mem_cons_of_mem x hy))]
    simp

theorem sortByCreatedDesc_of_increasing (l : List LinkRow)
    (h : l.Pairwise (fun a b => a.created_at < b.created_at)) :
    sortByCreatedDesc l = l.reverse := by
  induction l with
  | nil => rfl
  | cons x xs ih =>
    rw [sortByCreatedDesc, ih (List.Pairwise.of_cons h)]
    rw [insertSorted_of_lt]
    · simp
    · intro y hy
      exact (List.pairwise_cons.mp h).1 y (List.mem_reverse.mp hy)

/-- The table contents produced by `upsertAll` starting from rows that do
not collide with the upserted shortcodes: one row per pair, timestamps
`t0, t0 + 1, ...`. -/
def stamp (t0 : Nat) : List (String × String) → List LinkRow
  | [] => []
  | p :: ps => ⟨p.1, normalizeURL p.2, t0⟩ :: stamp (t0 + 1) ps

theorem stamp_created_ge (ps : List (String × String)) :
    ∀ t0, ∀ r ∈ stamp t0 ps, t0 ≤ r.created_at := by
  induction ps with
  | nil => intro t0 r hr; cases hr
  | cons p ps ih =>
    intro t0 r hr
    rcases List.mem_cons.mp hr with h | h
    · subst h; exact Nat.le_refl _
    · exact Nat.le_of_succ_le (ih (t0 + 1) r h)

theorem stamp_increasing (ps : List (String × String)) :
    ∀ t0, (stamp t0 ps).Pairwise (fun a b => a.created_at < b.created_at) := by
  induction ps with
  | nil => intro t0; exact List.Pairwise.nil
  | cons p ps ih =>
    intro t0
    rw [stamp, List.pairwise_cons]
    refine ⟨fun y hy => ?_, ih (t0 + 1)⟩
    exact Nat.lt_of_lt_of_le (Nat.lt_succ_self t0) (stamp_created_ge ps (t0 + 1) y hy)

theorem stamp_map_rowToLink (ps : List (String × String)) :
    ∀ t0, (stamp t0 ps).map rowToLink =
      ps.map (fun p => (⟨p.1, normalizeURL p.2⟩ : Link)) := by
  induction ps with
  | nil => intro t0; rfl
  | cons p ps ih => intro t0; simp [stamp, rowToLink, ih (t0 + 1)]

theorem upsertAll_eq_stamp (ps : List (String × String)) :
    ∀ (rows : List LinkRow) (t0 : Nat), (ps.map Prod.fst).Nodup →
      (∀ r ∈ rows, r.shortcode ∉ ps.map Prod.fst) →
      upsertAll rows t0 ps = rows ++ stamp t0 ps := by
  induction ps with
  | nil => intro rows t0 _ _; simp [upsertAll, stamp]
  | cons p ps ih =>
    intro rows t0 h1 h2
    rw [List.map_cons] at h1
    have h1' := List.nodup_cons.mp h1
    rw [upsertAll, stamp]
    have hsave : saveRows rows t0 p.1 (normalizeURL p.2) =
        rows ++ [⟨p.1, normalizeURL p.2, t0⟩] := by
      unfold saveRows
      congr 1
      rw [List.filter_eq_self]
      intro r hr
      have : r.shortcode ≠ p.1 := by
        have := h2 r hr
        simp only [List.map_cons, List.mem_cons] at this
        exact fun hc => this (Or.inl hc)
      simp [this]
    have hdisj : ∀ r ∈ rows ++ [(⟨p.1, normalizeURL p.2, t0⟩ : LinkRow)],
        r.shortcode ∉ ps.map Prod.fst := by
      intro r hr
      rcases List.mem_append.mp hr with h | h
      · intro hc
        have := h2 r h
        simp only [List.map_cons, List.mem_cons] at this
        exact this (Or.inr hc)
      · have hr' : r = ⟨p.1, normalizeURL p.2, t0⟩ := by simpa using h
        subst hr'
        exact h1'.1
    have hrec := ih (rows ++ [(⟨p.1, normalizeURL p.2, t0⟩ : LinkRow)]) (t0 + 1) h1'.2 hdisj
    rw [hsave, hrec]
    simp

/-! Claim theorems. -/

/-- C1: for every (shortcode, url) pair, Upsert (`saveLink`) followed by
Lookup (`getURL`) on a healthy store returns the url unchanged when it
begins with "http://" or "https://", and returns "https://" prepended to it
when it does not; either way the stored value begins with "http://" or
"https://". -/
theorem upsert_then_lookup_normalizes (db : DB) (now : Nat) (sc url : String)
    (hdb : db.failure = none) :
    ∃ db', saveLink db now sc url = .ok db' ∧
      ((strStartsWith url "http://" || strStartsWith url "https://") = true →
        getURL db' sc = .ok url) ∧
      ((strStartsWith url "http://" || strStartsWith url "https://") = false →
        getURL db' sc = .ok ("https://" ++ url)) ∧
      (∀ v, getURL db' sc = .ok v →
        (strStartsWith v "http://" || strStartsWith v "https://") = true) := by
  refine ⟨⟨saveRows db.rows now sc (normalizeURL url), none⟩, ?_, ?_, ?_, ?_⟩
  · unfold saveLink
    rw [hdb]
  · intro h
    unfold getURL
    simp only [findRow_saveRows]
    rw [normalizeURL_of_scheme url h]
  · intro h
    unfold getURL
    simp only [findRow_saveRows]
    rw [normalizeURL_of_no_scheme url h]
  · intro v hv
    unfold getURL at hv
    simp only [findRow_saveRows] at hv
    have : v = normalizeURL url := by
      exact (Except.ok.injEq _ _).mp hv.symm
    rw [this]
    exact normalizeURL_hasScheme url

/-- Witness for C1 at a concrete input: the scenario of the spec,
Upsert("github", "github.com") then Lookup("github"). -/
theorem upsert_then_lookup_normalizes_witness :
    ∃ db', saveLink ⟨[], none⟩ 5 "github" "github.com" = .ok db' ∧
      getURL db' "github" = .ok ("https://" ++ "github.com") := by
  obtain ⟨db', h1, _, h3, _⟩ :=
    upsert_then_lookup_normalizes ⟨[], none⟩ 5 "github" "github.com" rfl
  exact ⟨db', h1, h3 (by decide)⟩

/-- C2: Upsert (`saveLink`) is idempotent: applying it twice with the same
(shortcode, url) pair, at clock values t1 then t2, leaves exactly one stored
record for that shortcode and a stored state identical to the state of a
single application (at the clock value of the last call). -/
theorem upsert_idempotent (db : DB) (t1 t2 : Nat) (sc url : String)
    (hdb : db.failure = none) :
    ∃ db1 db2, saveLink db t1 sc url = .ok db1 ∧
      saveLink db1 t2 sc url = .ok db2 ∧
      saveLink db t2 sc url = .ok db2 ∧
      (db2.rows.filter (fun r => r.shortcode == sc)).length = 1 := by
  refine ⟨⟨saveRows db.rows t1 sc (normalizeURL url), none⟩,
    ⟨saveRows db.rows t2 sc (normalizeURL url), none⟩, ?_, ?_, ?_, ?_⟩
  · unfold saveLink
    rw [hdb]
  · unfold saveLink
    simp only
    rw [saveRows_idem]
  · unfold saveLink
    rw [hdb]
  · simp only
    rw [matches_saveRows]
    rfl

/-- Witness for C2 at a concrete input. -/
theorem upsert_idempotent_witness :
    ∃ db1 db2, saveLink ⟨[], none⟩ 0 "a" "b.com" = .ok db1 ∧
      saveLink db1 1 "a" "b.com" = .ok db2 ∧
      saveLink ⟨[], none⟩ 1 "a" "b.com" = .ok db2 ∧
      (db2.rows.filter (fun r => r.shortcode == "a")).length = 1 :=
  upsert_idempotent ⟨[], none⟩ 0 1 "a" "b.com" rfl

/-- C3: on a healthy store, Delete (`deleteLink`) of an absent shortcode
returns the not-found error and leaves the table unchanged; Delete of a
present shortcode succeeds and a subsequent Lookup (`getURL`) of that
shortcode returns the not-found error. -/
theorem delete_semantics (db : DB) (sc : String) (hdb : db.failure = none) :
    (findRow db.rows sc = none →
      deleteLink db sc = (.error .notFound, db)) ∧
    (findRow db.rows sc ≠ none →
      ∃ db', deleteLink db sc = (.ok (), db') ∧
        getURL db' sc = .error .notFound) := by
  obtain ⟨rows, failure⟩ := db
  simp only at hdb
  subst hdb
  constructor
  · intro habs
    unfold deleteLink
    simp only
    have hf : rows.filter (fun r => r.shortcode == sc) = [] := by
      rw [List.filter_eq_nil_iff]
      intro r hr
      have := List.find?_eq_none.mp habs r hr
      simp_all
    rw [hf, erase_eq_self_of_absent rows sc habs]
    simp
  · intro hpres
    refine ⟨⟨rows.filter (fun r => !(r.shortcode == sc)), none⟩, ?_, ?_⟩
    · unfold deleteLink
      simp only
      have hne : rows.filter (fun r => r.shortcode == sc) ≠ [] := by
        obtain ⟨r, hr⟩ := Option.ne_none_iff_exists'.mp hpres
        have hmem := List.mem_of_find?_eq_some hr
        have hpr := List.find?_some hr
        intro hnil
        have : r ∈ rows.filter (fun r => r.shortcode == sc) :=
          List.mem_filter.mpr ⟨hmem, hpr⟩
        rw [hnil] at this
        cases this
      have : (rows.filter (fun r => r.shortcode == sc)).length ≠ 0 := by
        simpa [List.length_eq_zero] using hne
      simp [this]
    · unfold getURL
      simp only [findRow_erase_none]

/-- Witness for C3 at concrete inputs: the spec scenario Delete("missing")
on an empty store, and delete-then-lookup on a store holding "a". -/
theorem delete_semantics_witness :
    deleteLink ⟨[], none⟩ "missing" = (.error .notFound, ⟨[], none⟩) ∧
    ∃ db', deleteLink ⟨[⟨"a", "https://b.com", 0⟩], none⟩ "a" = (.ok (), db') ∧
      getURL db' "a" = .error .notFound := by
  constructor
  · exact (delete_semantics ⟨[], none⟩ "missing" rfl).1 rfl
  · exact (delete_semantics ⟨[⟨"a", "https://b.com", 0⟩], none⟩ "a" rfl).2 (by decide)

/-- C4: ListAll (`getAllLinks`) on a healthy empty store returns the empty
sequence, not an error; and after N Upserts with N distinct shortcodes
(clock advancing between statements) it returns exactly N records, newest
created first — i.e. the upserted pairs, normalized, in reverse upsert
order. -/
theorem listAll_empty_and_ordered :
    getAllLinks ⟨[], none⟩ = .ok ([] : List Link) ∧
    ∀ ps : List (String × String), (ps.map Prod.fst).Nodup →
      getAllLinks ⟨upsertAll [] 0 ps, none⟩ =
        .ok ((ps.map (fun p => (⟨p.1, normalizeURL p.2⟩ : Link))).reverse) ∧
      ((ps.map (fun p => (⟨p.1, normalizeURL p.2⟩ : Link))).reverse).length =
        ps.length := by
  constructor
  · rfl
  · intro ps hnd
    have hrows : upsertAll [] 0 ps = stamp 0 ps := by
      have := upsertAll_eq_stamp ps [] 0 hnd (by intro r hr; cases hr)
      simpa using this
    constructor
    · unfold getAllLinks
      simp only [hrows]
      rw [sortByCreatedDesc_of_increasing _ (stamp_increasing ps 0)]
      rw [List.map_reverse, stamp_map_rowToLink ps 0]
    · simp

/-- Witness for C4 at a concrete input: two distinct upserts, listed
newest-first with the first URL normalized. -/
theorem listAll_empty_and_ordered_witness :
    getAllLinks ⟨upsertAll [] 0 [("a", "x.com"), ("b", "http://y")], none⟩ =
      .ok [⟨"b", "http://y"⟩, ⟨"a", "https://x.com"⟩] := by
  have h := (listAll_empty_and_ordered.2 [("a", "x.com"), ("b", "http://y")]
    (by decide)).1
  rw [h]
  rfl

/-- C5 counterexample: `created_at` is not preserved by an overwrite.
Upserting "a" at clock 0 stores `created_at = 0`; upserting the same pair
again at clock 1 stores `created_at = 1`, because `INSERT OR REPLACE`
deletes the old row and the fresh insert takes the `CURRENT_TIMESTAMP`
default again. -/
theorem createdAt_reset_on_overwrite_cex :
    saveLink ⟨[], none⟩ 0 "a" "b.com" =
      .ok ⟨[⟨"a", "https://b.com", 0⟩], none⟩ ∧
    saveLink ⟨[⟨"a", "https://b.com", 0⟩], none⟩ 1 "a" "b.com" =
      .ok ⟨[⟨"a", "https://b.com", 1⟩], none⟩ ∧
    (1 : Nat) ≠ 0 :=
  ⟨rfl, rfl, by decide⟩

/-- C5 amended: on overwrite, `created_at` is reset to the clock of the
overwriting statement — after any two Upserts of the same shortcode, the
stored row carries the timestamp (and normalized url) of the second. -/
theorem createdAt_latest_upsert (db : DB) (t1 t2 : Nat) (sc u1 u2 : String)
    (hdb : db.failure = none) :
    ∃ db1 db2, saveLink db t1 sc u1 = .ok db1 ∧
      saveLink db1 t2 sc u2 = .ok db2 ∧
      findRow db2.rows sc = some ⟨sc, normalizeURL u2, t2⟩ := by
  refine ⟨⟨saveRows db.rows t1 sc (normalizeURL u1), none⟩,
    ⟨saveRows (saveRows db.rows t1 sc (normalizeURL u1)) t2 sc (normalizeURL u2), none⟩,
    ?_, ?_, ?_⟩
  · unfold saveLink
    rw [hdb]
  · rfl
  · exact findRow_saveRows _ t2 sc (normalizeURL u2)

/-- Witness for the amended C5 at a concrete input. -/
theorem createdAt_latest_upsert_witness :
    ∃ db1 db2, saveLink ⟨[], none⟩ 0 "a" "b.com" = .ok db1 ∧
      saveLink db1 1 "a" "b.com" = .ok db2 ∧
      findRow db2.rows "a" = some ⟨"a", normalizeURL "b.com", 1⟩ :=
  createdAt_latest_upsert ⟨[], none⟩ 0 1 "a" "b.com" "b.com" rfl

/-- C6 counterexample: the Forwarding Handler does not map StoreError to a
server-error response.  With a failing store handle, Lookup returns a
StoreError, yet `handleForward` produces exactly the same not-found policy
response (redirect home with error marker; 404 page in the untagged
variant) that a NotFoundError produces — the two error kinds land in the
same response class, and no server-error response exists in the handler. -/
theorem forward_error_conflation_cex :
    getURL ⟨[], some "disk I/O error"⟩ "x" = .error (.storeError "disk I/O error") ∧
    getURL ⟨[], none⟩ "x" = .error .notFound ∧
    handleForward ⟨[], some "disk I/O error"⟩ "x" =
      .redirectFound "/?shortcode=x&error=not_found" ∧
    handleForward ⟨[], none⟩ "x" =
      .redirectFound "/?shortcode=x&error=not_found" ∧
    handleForwardBasic ⟨[], some "disk I/O error"⟩ "x" = .notFoundPage ∧
    handleForwardBasic ⟨[], none⟩ "x" = .notFoundPage :=
  ⟨rfl, rfl, rfl, rfl, rfl, rfl⟩

/-- C6 amended: every Lookup error — NotFoundError and StoreError alike —
is mapped by the Forwarding Handler to its not-found policy response
(redirect to the home page with the shortcode and an error marker in the
server-tagged variant; a 404 page in the untagged variant); store failures
are not distinguished from absence. -/
theorem forward_any_error_policy (db : DB) (sc : String) (e : RepoError)
    (h1 : (sc == "") = false) (h : getURL db sc = .error e) :
    handleForward db sc = .redirectFound ("/?shortcode=" ++ sc ++ "&error=not_found") ∧
    handleForwardBasic db sc = .notFoundPage := by
  constructor
  · unfold handleForward
    rw [h1, h]
    rfl
  · unfold handleForwardBasic
    rw [h1, h]
    rfl

/-- Witness for the amended C6 at a concrete input. -/
theorem forward_any_error_policy_witness :
    handleForward ⟨[], some "db closed"⟩ "go" =
      .redirectFound ("/?shortcode=" ++ "go" ++ "&error=not_found") ∧
    handleForwardBasic ⟨[], some "db closed"⟩ "go" = .notFoundPage :=
  forward_any_error_policy ⟨[], some "db closed"⟩ "go" (.storeError "db closed")
    (by decide) rfl

/-- C7 counterexample: the DELETE branch of the Management API does not
give store failures a server-error status.  A failing store handle makes
`deleteLink` return a StoreError, yet the handler replies 404 — the same
status a NotFoundError receives. -/
theorem delete_api_conflation_cex :
    deleteLink ⟨[], some "disk I/O error"⟩ "x" =
      (.error (.storeError "disk I/O error"), ⟨[], some "disk I/O error"⟩) ∧
    handleAPI ⟨[], some "disk I/O error"⟩ 7 (.del "x") =
      (⟨404, false, "disk I/O error", .none⟩, ⟨[], some "disk I/O error"⟩) ∧
    handleAPI ⟨[], none⟩ 7 (.del "x") =
      (⟨404, false, "shortcode not found", .none⟩, ⟨[], none⟩) :=
  ⟨rfl, rfl, rfl⟩

/-- C7 amended: for a DELETE request with a non-empty shortcode, every
failure of Delete — NotFoundError and StoreError alike — yields a 404
envelope carrying the error's message; the two failure kinds receive the
same response status. -/
theorem delete_api_any_error_404 (db db' : DB) (now : Nat) (sc : String)
    (e : RepoError) (h1 : (sc == "") = false)
    (h : deleteLink db sc = (.error e, db')) :
    handleAPI db now (.del sc) = (⟨404, false, errMessage e, .none⟩, db') := by
  simp [handleAPI, h1, h]

/-- Witness for the amended C7 at a concrete input. -/
theorem delete_api_any_error_404_witness :
    handleAPI ⟨[], some "db closed"⟩ 3 (.del "x") =
      (⟨404, false, errMessage (.storeError "db closed"), .none⟩,
        ⟨[], some "db closed"⟩) :=
  delete_api_any_error_404 ⟨[], some "db closed"⟩ ⟨[], some "db closed"⟩ 3 "x"
    (.storeError "db closed") (by decide) rfl

/-- C8 counterexample: the POST success envelope echoes the raw request
body, not the stored Link.  Posting {"a", "b.com"} stores the normalized
url "https://b.com" but the envelope's data field carries the un-normalized
"b.com", which does not begin with "http://" or "https://". -/
theorem post_echo_cex :
    handleAPI ⟨[], none⟩ 0 (.post (some ⟨"a", "b.com"⟩)) =
      (⟨200, true, "Link saved successfully", .link ⟨"a", "b.com"⟩⟩,
        ⟨[⟨"a", "https://b.com", 0⟩], none⟩) ∧
    rowToLink ⟨"a", "https://b.com", 0⟩ ≠ (⟨"a", "b.com"⟩ : Link) :=
  ⟨rfl, by decide⟩

/-- C8 amended: for every successful POST with non-empty shortcode and url,
the success envelope's data field echoes the request's Link exactly as
submitted, while the store holds the normalized url; the two differ
whenever the submitted url lacks a scheme prefix. -/
theorem post_echoes_request (db : DB) (now : Nat) (l : Link)
    (hdb : db.failure = none) (h1 : (l.shortcode == "") = false)
    (h2 : (l.url == "") = false) :
    ∃ db', handleAPI db now (.post (some l)) =
        (⟨200, true, "Link saved successfully", .link l⟩, db') ∧
      findRow db'.rows l.shortcode = some ⟨l.shortcode, normalizeURL l.url, now⟩ := by
  refine ⟨⟨saveRows db.rows now l.shortcode (normalizeURL l.url), none⟩, ?_, ?_⟩
  · simp only [handleAPI, h1, h2, Bool.or_self, Bool.false_eq_true, if_false]
    unfold saveLink
    rw [hdb]
  · exact findRow_saveRows _ now l.shortcode (normalizeURL l.url)

/-- Witness for the amended C8 at a concrete input. -/
theorem post_echoes_request_witness :
    ∃ db', handleAPI ⟨[], none⟩ 0 (.post (some ⟨"a", "b.com"⟩)) =
        (⟨200, true, "Link saved successfully", .link ⟨"a", "b.com"⟩⟩, db') ∧
      findRow db'.rows "a" = some ⟨"a", normalizeURL "b.com", 0⟩ :=
  post_echoes_request ⟨[], none⟩ 0 ⟨"a", "b.com"⟩ rfl (by decide) (by decide)

/-- C9: for every request whose (non-empty) path-derived shortcode resolves
in the Repository, the Forwarding Handler — in both variants — responds
with a Found redirect (status 302) whose Location is exactly the stored
URL. -/
theorem forward_present_redirects (db : DB) (sc url : String)
    (h1 : (sc == "") = false) (h : getURL db sc = .ok url) :
    handleForward db sc = .redirectFound url ∧
    handleForwardBasic db sc = .redirectFound url ∧
    (handleForward db sc).status = 302 := by
  have hf : handleForward db sc = .redirectFound url := by
    unfold handleForward
    rw [h1, h]
    rfl
  have hb : handleForwardBasic db sc = .redirectFound url := by
    unfold handleForwardBasic
    rw [h1, h]
    rfl
  exact ⟨hf, hb, by rw [hf]; rfl⟩

/-- Witness for C9 at a concrete input. -/
theorem forward_present_redirects_witness :
    handleForward ⟨[⟨"go", "https://x", 0⟩], none⟩ "go" = .redirectFound "https://x" ∧
    handleForwardBasic ⟨[⟨"go", "https://x", 0⟩], none⟩ "go" = .redirectFound "https://x" ∧
    (handleForward ⟨[⟨"go", "https://x", 0⟩], none⟩ "go").status = 302 :=
  forward_present_redirects ⟨[⟨"go", "https://x", 0⟩], none⟩ "go" "https://x"
    (by decide) rfl

/-- C10: the Repository's Upsert (`saveLink`) validates nothing: with an
empty-string shortcode it succeeds on a healthy store and stores a record
keyed by the empty string, while the Management API's POST handler rejects
the same input with a 400 envelope and an unchanged store — non-emptiness
is enforced only at the API layer. -/
theorem upsert_skips_validation (db : DB) (now : Nat) (url : String)
    (hdb : db.failure = none) :
    (∃ db', saveLink db now "" url = .ok db' ∧
      findRow db'.rows "" = some ⟨"", normalizeURL url, now⟩) ∧
    handleAPI db now (.post (some ⟨"", url⟩)) =
      (⟨400, false, "Shortcode and URL are required", .none⟩, db) := by
  constructor
  · refine ⟨⟨saveRows db.rows now "" (normalizeURL url), none⟩, ?_, ?_⟩
    · unfold saveLink
      rw [hdb]
    · exact findRow_saveRows _ now "" (normalizeURL url)
  · rfl

/-- Witness for C10 at a concrete input. -/
theorem upsert_skips_validation_witness :
    (∃ db', saveLink ⟨[], none⟩ 2 "" "b.com" = .ok db' ∧
      findRow db'.rows "" = some ⟨"", normalizeURL "b.com", 2⟩) ∧
    handleAPI ⟨[], none⟩ 2 (.post (some ⟨"", "b.com"⟩)) =
      (⟨400, false, "Shortcode and URL are required", .none⟩, ⟨[], none⟩) :=
  upsert_skips_validation ⟨[], none⟩ 2 "b.com" rfl

end Lnk
